import Mathlib

/-!
Shallow embedding of the PoI importer: the Django model `PoI` with its
`save` hook (`poi_importer_app/models.py`) and the management command
`import_pois` (`poi_importer_app/management/commands/import_pois.py`).

Modelling conventions:
* Python floats are modelled exactly: a finite float is an exact rational
  (`PyRat`, kept in lowest terms by construction) and the special values
  `nan`, `inf`, `-inf` are separate constructors of `PyF`.  Binary floating
  point rounding is not modelled; none of the verified claims depends on it.
* Loosely typed pandas cell values are the tagged union `Value`
  (null marker, NaN marker, number, string, array).
* Fallible Python operations return `Option`; the spot where each exception
  is caught is encoded structurally in `rowOutcome` below, mirroring the
  `try`/`except` nesting of `process_dataframe`.
-/

/-- An exact rational with explicit numerator and denominator.  All values
are produced through `ratNorm`, so they are in lowest terms and structural
equality coincides with rational equality on every value the model builds. -/
structure PyRat where
  num : Int
  den : Nat
deriving DecidableEq, Repr

/-- Normalise `n / d` to lowest terms (`d = 0` never arises in the model;
it is mapped to `0` for totality). -/
def ratNorm (n : Int) (d : Nat) : PyRat :=
  if d = 0 then ⟨0, 1⟩
  else
    let g := Nat.gcd n.natAbs d
    if g = 0 then ⟨0, 1⟩
    else ⟨n / (g : Int), d / g⟩

/-- The rational `n` (an integer). -/
def PyRat.ofInt (n : Int) : PyRat := ⟨n, 1⟩

/-- Exact addition of rationals. -/
def ratAdd (a b : PyRat) : PyRat :=
  ratNorm (a.num * (b.den : Int) + b.num * (a.den : Int)) (a.den * b.den)

/-- Exact division of a rational by a natural number. -/
def ratDivNat (a : PyRat) (n : Nat) : PyRat := ratNorm a.num (a.den * n)

/-- Truncation toward zero, as performed by Python `int()` on a float. -/
def ratTrunc (q : PyRat) : Int :=
  if q.num < 0 then -((q.num.natAbs / q.den : Nat) : Int)
  else ((q.num.natAbs / q.den : Nat) : Int)

/-- Model of a Python float value: a finite value (exact rational), `nan`,
`inf` or `-inf`. -/
inductive PyF where
  | fin (q : PyRat)
  | nan
  | inf
  | ninf
deriving DecidableEq, Repr

/-- Python `+` on floats: `nan` propagates, `inf + -inf = nan`, an infinity
absorbs finite values, finite values add exactly. -/
def pfAdd : PyF → PyF → PyF
  | .nan, _ => .nan
  | _, .nan => .nan
  | .inf, .ninf => .nan
  | .ninf, .inf => .nan
  | .inf, _ => .inf
  | _, .inf => .inf
  | .ninf, _ => .ninf
  | _, .ninf => .ninf
  | .fin a, .fin b => .fin (ratAdd a b)

/-- Python `sum` over a list of floats (initial value `0`). -/
def pfSum (l : List PyF) : PyF := l.foldl pfAdd (.fin (.ofInt 0))

/-- Division of a float by a list length, as used by
`sum(self.ratings) / len(self.ratings)`. -/
def pfDivNat : PyF → Nat → PyF
  | .fin q, n => .fin (ratDivNat q n)
  | .nan, _ => .nan
  | .inf, _ => .inf
  | .ninf, _ => .ninf

/-- Mean: `sum(ratings) / len(ratings)`, as computed by the save hook. -/
def pfMean (l : List PyF) : PyF := pfDivNat (pfSum l) l.length

/-- The persisted `PoI` model row (`poi_importer_app/models.py`).
`latitude`/`longitude` are `DecimalField`s fed from the coerced Python
floats; `avg_rating` is nullable (`null=True`). -/
structure PoI where
  poi_id : Int
  name : String
  category : String
  latitude : PyF
  longitude : PyF
  ratings : List PyF
  avg_rating : Option PyF
deriving DecidableEq, Repr

/-- Model of `PoI.save`: `if self.ratings: self.avg_rating = sum(...) / len(...)`
followed by the ordinary save.  When `ratings` is empty (falsy) the hook
leaves `avg_rating` untouched. -/
def save (p : PoI) : PoI :=
  if p.ratings.isEmpty then p
  else { p with avg_rating := some (pfMean p.ratings) }

/-- A loosely typed pandas cell value: the Python `None` null marker, the
float NaN marker, a number, a string, or an array-like value. -/
inductive Value where
  | null
  | nan
  | num (q : PyRat)
  | str (s : String)
  | arr (items : List Value)
deriving Repr

/-- A dataframe row: an association of column names to cell values. -/
abbrev Row := List (String × Value)

/-- Lookup `row.get(key, default)`: total lookup with a default. -/
def rowGetD (row : Row) (k : String) (d : Value) : Value :=
  match List.lookup k row with
  | some v => v
  | none => d

/-- Indexing `row[key]`; `none` models the `KeyError` raised when the
column label is absent. -/
def rowIdx (row : Row) (k : String) : Option Value := List.lookup k row

/-- The skip test of `process_dataframe` lines 176-181: a value is skipped
when it `is None`, or when it has a length (string or array) and that
length is `0`.  Numbers and NaN have no `__len__`. -/
def isMissing : Value → Bool
  | .null => true
  | .str s => s.data.isEmpty
  | .arr l => l.isEmpty
  | _ => false

/-- Whitespace characters stripped by Python `str.strip()` (the ASCII set;
the rarely seen additional Unicode whitespace is not modelled). -/
def pyIsSpace (c : Char) : Bool :=
  c = ' ' || c = '\t' || c = '\n' || c = '\r' || c = '\x0b' || c = '\x0c'

/-- Strip leading and trailing whitespace from a character list. -/
def pyStripL (cs : List Char) : List Char :=
  ((cs.dropWhile pyIsSpace).reverse.dropWhile pyIsSpace).reverse

/-- Python `str.strip()`. -/
def pyStrip (s : String) : String := String.mk (pyStripL s.data)

/-- Python `str(value)`.  Only the rendering of strings matters to any
verified claim; numeric and structured renderings are schematic (they are
never empty nor whitespace-only, which is the only property used). -/
def pyStr : Value → String
  | .str s => s
  | .null => "None"
  | .nan => "nan"
  | .num q => String.mk (Nat.toDigits 10 q.num.natAbs)
  | .arr _ => "[...]"

/-- Numeric value of a list of decimal digit characters. -/
def digitsToNat (cs : List Char) : Nat :=
  cs.foldl (fun n c => 10 * n + (c.toNat - 48)) 0

/-- Parse of an optional leading sign; returns the sign and the remainder. -/
def signSplit : List Char → Int × List Char
  | '+' :: r => (1, r)
  | '-' :: r => (-1, r)
  | r => (1, r)

/-- Python `int(string)`: strip, optional sign, one or more decimal digits
consuming the whole remainder; `none` models the `ValueError` raised
otherwise.  (Digit-group underscores and non-ASCII digits are not
modelled.) -/
def pyIntOfString (s : String) : Option Int :=
  let cs := pyStripL s.data
  let (sgn, cs) := signSplit cs
  let ds := cs.takeWhile Char.isDigit
  if ds.isEmpty then none
  else if (cs.drop ds.length).isEmpty then some (sgn * (digitsToNat ds : Int))
  else none

/-- Python `int(value)` as applied to `poi_id_val`; `none` models the
exception (`ValueError` on NaN or a non-numeric string, `TypeError` on
`None` or a list), which in `process_dataframe` is caught only by the
outermost `except Exception` handler. -/
def pyIntOfValue : Value → Option Int
  | .num q => some (ratTrunc q)
  | .nan => none
  | .str s => pyIntOfString s
  | .null => none
  | .arr _ => none

/-- Hexadecimal digit as accepted by the regex class `[0-9A-Fa-f]`. -/
def isHexCh (c : Char) : Bool :=
  c.isDigit || ('a' ≤ c && c ≤ 'f') || ('A' ≤ c && c ≤ 'F')

/-- Parse of the decimal part of a Python float literal (after sign
removal): `digits [. digits] [e/E [sign] digits]` or `. digits ...`,
consuming the whole input.  Returns the exact rational value. -/
def parseDecimal (sgn : Int) (cs : List Char) : Option PyRat :=
  let ip := cs.takeWhile Char.isDigit
  let r1 := cs.drop ip.length
  let (fp, r2) :=
    match r1 with
    | '.' :: r => (r.takeWhile Char.isDigit, r.drop (r.takeWhile Char.isDigit).length)
    | _ => ([], r1)
  if ip.isEmpty && fp.isEmpty then none
  else
    let mant : Int := sgn * ((digitsToNat ip * 10 ^ fp.length + digitsToNat fp : Nat) : Int)
    match r2 with
    | [] => some (ratNorm mant (10 ^ fp.length))
    | e :: r3 =>
      if e = 'e' || e = 'E' then
        let (esgn, r4) := signSplit r3
        let eds := r4.takeWhile Char.isDigit
        if eds.isEmpty then none
        else if (r4.drop eds.length).isEmpty then
          if esgn < 0 then some (ratNorm mant (10 ^ fp.length * 10 ^ digitsToNat eds))
          else some (ratNorm (mant * (10 ^ digitsToNat eds : Nat)) (10 ^ fp.length))
        else none
      else none

/-- Python `float(string)`: strip, optional sign, then `inf`/`infinity`/
`nan` (case-insensitive) or a decimal literal; `none` models `ValueError`.
(Digit-group underscores are not modelled.) -/
def pyFloatOfString (s : String) : Option PyF :=
  let cs := pyStripL s.data
  let (sgn, cs) := signSplit cs
  let lower := cs.map Char.toLower
  if lower = ['i', 'n', 'f'] || lower = ['i', 'n', 'f', 'i', 'n', 'i', 't', 'y'] then
    some (if sgn < 0 then .ninf else .inf)
  else if lower = ['n', 'a', 'n'] then some .nan
  else (parseDecimal sgn cs).map .fin

/-- Python `float(value)`; `none` models the exception (`ValueError` for an
unparseable string, `TypeError` for `None` or a list). -/
def pyFloatOfValue : Value → Option PyF
  | .num q => some (.fin q)
  | .nan => some .nan
  | .str s => pyFloatOfString s
  | .null => none
  | .arr _ => none

/-- One item of an array-like ratings value (`parse_ratings` lines 243-257):
`None` and float NaN items are skipped, then `float(item)` is attempted and
items whose coercion raises are skipped. -/
def ratingItemFloat : Value → Option PyF
  | .null => none
  | .nan => none
  | .num q => some (.fin q)
  | .str s => pyFloatOfString s
  | .arr _ => none

/-- All-or-nothing coercion of the pieces of a ratings string: the Python
list comprehension `[float(r.strip()) for r in ...]` materialises the whole
list or raises on the first failing piece. -/
def optionMapAll (f : α → Option β) : List α → Option (List β)
  | [] => some []
  | x :: l =>
    match f x with
    | none => none
    | some y => (optionMapAll f l).map (y :: ·)

/-- Result of the comprehension as `parse_ratings` sees it: the built list,
or `[]` when the comprehension raised. -/
def optionMapAllD (f : α → Option β) (l : List α) : List β :=
  match optionMapAll f l with
  | some r => r
  | none => []

/-- Python `str.split(",")` on a character list: pieces between commas,
empty pieces preserved. -/
def splitOnComma : List Char → List (List Char)
  | [] => [[]]
  | c :: rest =>
    if c = ',' then [] :: splitOnComma rest
    else
      match splitOnComma rest with
      | p :: ps => (c :: p) :: ps
      | [] => [[c]]

/-- String branch of `parse_ratings` (lines 259-268): strip; strip one pair
of wrapping braces; empty string gives `[]`; otherwise split on commas,
strip each piece, drop empty pieces, coerce every piece to float, and on
any piece failing coercion (`ValueError`) return `[]`. -/
def parseRatingsStr (s : String) : List PyF :=
  let t := pyStripL s.data
  let core :=
    if t.head? = some '{' && t.getLast? = some '}' then (t.drop 1).dropLast
    else t
  if core.isEmpty then []
  else
    let pieces := ((splitOnComma core).map pyStripL).filter (fun p => !p.isEmpty)
    optionMapAllD (fun p => pyFloatOfString (String.mk p)) pieces

/-- Model of `Command.parse_ratings` (lines 231-273): `None` gives `[]`;
array-likes are mapped per item with failures dropped; strings go through
the all-or-nothing string branch; any other scalar is coerced alone with
`[]` on failure. -/
def parse_ratings : Value → List PyF
  | .null => []
  | .arr items => items.filterMap ratingItemFloat
  | .str s => parseRatingsStr s
  | .num q => [.fin q]
  | .nan => [.nan]

/-- The fully coerced fields a valid row hands to `update_or_create`. -/
structure RowFields where
  pid : Int
  name : String
  category : String
  latitude : PyF
  longitude : PyF
  ratings : List PyF
deriving DecidableEq, Repr

/-- Per-key action of `PoI.objects.update_or_create(poi_id=..., defaults=...)`
followed by the `save` hook: update the mutable fields of the existing
record, or build a fresh record (whose `avg_rating` starts as the `null`
field default) when none exists. -/
def applyRowFields (f : RowFields) : Option PoI → PoI
  | some p =>
    save { p with
      name := f.name, category := f.category, latitude := f.latitude,
      longitude := f.longitude, ratings := f.ratings }
  | none =>
    save { poi_id := f.pid, name := f.name, category := f.category,
           latitude := f.latitude, longitude := f.longitude,
           ratings := f.ratings, avg_rating := none }

/-- The store: the persisted `PoI` rows in insertion order. -/
abbrev Store := List PoI

/-- Store-level `update_or_create`: replace the record holding the external
id if one exists, otherwise append a fresh record. -/
def update_or_create : Store → RowFields → Store
  | [], f => [applyRowFields f none]
  | p :: s, f =>
    if p.poi_id = f.pid then applyRowFields f (some p) :: s
    else p :: update_or_create s f

/-- `pd.isna(value)` in the boolean context of line 192: `some b` when the
check yields a scalar truth value, `none` when the value is array-like and
evaluating the result array as a boolean raises (caught by the
`except (ValueError, TypeError)` handler of line 198). -/
def pdIsna : Value → Option Bool
  | .null => some true
  | .nan => some true
  | .num _ => some false
  | .str _ => some false
  | .arr _ => none

/-- Outcome classification of one row of `process_dataframe`:
silently filtered, skipped with a warning, counted as a row error, or
successfully coerced into `RowFields`.  The checks read only the row, never
the store, so the classification is a pure function of the row. -/
inductive ROut where
  | silent
  | warn
  | err
  | ok (f : RowFields)
deriving DecidableEq, Repr

/-- Row pipeline of `process_dataframe` (lines 168-215), in source order:
presence checks on `poi_id`/`name`/`category` (silent `continue`);
`int(poi_id_val)` whose exception reaches the outer `except Exception`
(row error); `row['latitude']`/`row['longitude']` whose `KeyError` also
reaches the outer handler (row error); the `pd.isna` test and the float
coercions whose failures are warnings; finally ratings parsing (total). -/
def rowOutcome (row : Row) : ROut :=
  let pidV := rowGetD row "poi_id" .null
  let nameV := rowGetD row "name" .null
  let catV := rowGetD row "category" .null
  if isMissing pidV || isMissing nameV || isMissing catV then .silent
  else
    match pyIntOfValue pidV with
    | none => .err
    | some pid =>
      match rowIdx row "latitude", rowIdx row "longitude" with
      | none, _ => .err
      | _, none => .err
      | some latV, some lonV =>
        match pdIsna latV with
        | none => .warn
        | some true => .warn
        | some false =>
          match pdIsna lonV with
          | none => .warn
          | some true => .warn
          | some false =>
            match pyFloatOfValue latV with
            | none => .warn
            | some lat =>
              match pyFloatOfValue lonV with
              | none => .warn
              | some lon =>
                .ok { pid := pid,
                      name := pyStrip (pyStr nameV),
                      category := pyStrip (pyStr catV),
                      latitude := lat, longitude := lon,
                      ratings := parse_ratings (rowGetD row "ratings" (.arr [])) }

/-- Processing of one row against the store: a valid row performs the
upsert, every other outcome leaves the store unchanged. -/
def processRow (s : Store) (row : Row) : ROut × Store :=
  match rowOutcome row with
  | .ok f => (.ok f, update_or_create s f)
  | o => (o, s)

/-- One line written to stdout during row processing (its text elided). -/
inductive OutLine where
  | warnLine
  | errLine
  | progressLine
deriving DecidableEq, Repr

/-- Mutable state of one `process_dataframe` call: the store plus the three
counters and the emitted per-row output lines. -/
structure ImportState where
  store : Store
  success : Nat
  errors : Nat
  dups : Nat
  out : List OutLine
deriving DecidableEq, Repr

/-- Loop body of `process_dataframe`: silent skip changes nothing; a
coordinate problem emits a warning line only; an uncaught row exception
increments the error counter and emits an error line; a valid row upserts,
increments the success counter and emits a progress line at every 100th
success.  `update_or_create` keyed on the unique `poi_id` never raises
`IntegrityError`, so the duplicate counter is never incremented. -/
def step (st : ImportState) (row : Row) : ImportState :=
  match rowOutcome row with
  | .silent => st
  | .warn => { st with out := st.out ++ [.warnLine] }
  | .err => { st with errors := st.errors + 1, out := st.out ++ [.errLine] }
  | .ok f =>
    { st with
      store := update_or_create st.store f,
      success := st.success + 1,
      out := if (st.success + 1) % 100 = 0 then st.out ++ [.progressLine] else st.out }

/-- Initial state of one `process_dataframe` call over store `s`. -/
def initState (s : Store) : ImportState := ⟨s, 0, 0, 0, []⟩

/-- Model of `Command.process_dataframe`: fold the row pipeline over the
rows in order (the trailing summary line is not modelled). -/
def process_dataframe (rows : List Row) (st : ImportState) : ImportState :=
  rows.foldl step st

/-- Outcome of a call to `gzip.decompress`: the decompressed bytes, an
`OSError` (including `gzip.BadGzipFile`), or an `EOFError` (raised by
CPython when the compressed stream is truncated, e.g. on the bare two-byte
input `1F 8B`; `zlib.error` behaves like `EOFError` here and is not
modelled separately). -/
inductive GzResult where
  | ok (d : List Nat)
  | osError
  | eofError
deriving DecidableEq, Repr

/-- Continuation of `import_xml` after the byte stage: either the bytes
handed on to the decoding step, or the file-level error path (the outer
`except Exception` handler printing `Error reading XML file`). -/
inductive XmlStage where
  | proceeds (bytes : List Nat)
  | fileError
deriving DecidableEq, Repr

/-- Gzip stage of `import_xml` (lines 120-124), parametrised by the
behaviour `dec` of `gzip.decompress` on the raw bytes: when the first two
bytes are the magic `1F 8B` the data is decompressed, with `except
OSError: pass` keeping the raw bytes on an `OSError`; any other exception
(such as `EOFError`) escapes this `try` block. -/
def gunzipStage (dec : List Nat → GzResult) (raw : List Nat) : Option (List Nat) :=
  match raw with
  | a :: b :: _ =>
    if a = 0x1F && b = 0x8B then
      match dec raw with
      | .ok d => some d
      | .osError => some raw
      | .eofError => none
    else some raw
  | _ => some raw

/-- Byte stage of `import_xml` as seen from the file-level handler: an
exception escaping the gzip stage is caught by `except Exception` and
reported as a file-level error. -/
def import_xml_bytes (dec : List Nat → GzResult) (raw : List Nat) : XmlStage :=
  match gunzipStage dec raw with
  | some bytes => .proceeds bytes
  | none => .fileError

/-- Behaviour of CPython `gzip.decompress` on the truncated two-byte input
`b"\x1f\x8b"`: the stream ends before the ten-byte member header is
complete, so `EOFError` is raised. -/
def truncatedGzDec : List Nat → GzResult := fun _ => .eofError

/-- Lookahead of the sanitiser regex
`&(?!amp;|lt;|gt;|quot;|apos;|#\d+;|#x[0-9A-Fa-f]+;)`: does the text after
an ampersand begin with a recognised entity-reference tail?  The regex
class `\d` is modelled by ASCII digits. -/
def leadsWithL : List Char → List Char → Bool
  | [], _ => true
  | _, [] => false
  | a :: ps, b :: cs => a = b && leadsWithL ps cs

/-- Tail of a decimal numeric character reference: `#` then one or more
digits then `;`. -/
def decRefAhead (cs : List Char) : Bool :=
  match cs with
  | '#' :: rest =>
    let ds := rest.takeWhile Char.isDigit
    !ds.isEmpty && leadsWithL [';'] (rest.drop ds.length)
  | _ => false

/-- Tail of a hexadecimal numeric character reference: `#x` then one or
more hex digits then `;`. -/
def hexRefAhead (cs : List Char) : Bool :=
  match cs with
  | '#' :: 'x' :: rest =>
    let ds := rest.takeWhile isHexCh
    !ds.isEmpty && leadsWithL [';'] (rest.drop ds.length)
  | _ => false

/-- Recognised entity-reference tails of the sanitiser regex lookahead. -/
def entityAhead (cs : List Char) : Bool :=
  leadsWithL ['a', 'm', 'p', ';'] cs || leadsWithL ['l', 't', ';'] cs ||
  leadsWithL ['g', 't', ';'] cs || leadsWithL ['q', 'u', 'o', 't', ';'] cs ||
  leadsWithL ['a', 'p', 'o', 's', ';'] cs || decRefAhead cs || hexRefAhead cs

/-- Model of `_sanitize_ampersands` (lines 134-136) on a character list:
`re.sub` scans left to right, replaces each `&` whose tail is not a
recognised entity reference by `&amp;`, and leaves every other character
unchanged (replacement text is not rescanned). -/
def sanitizeAmpsL : List Char → List Char
  | [] => []
  | c :: rest =>
    (if c = '&' && !entityAhead rest then ['&', 'a', 'm', 'p', ';'] else [c]) ++
      sanitizeAmpsL rest

/-- Model of `_sanitize_ampersands` on strings. -/
def sanitize_ampersands (s : String) : String := String.mk (sanitizeAmpsL s.data)

/-- Spec-side formulation of the ratings string branch, following §4.5 of
the specification word for word: strip; if wrapped in a single pair of
braces strip them; split on commas, trim each piece, drop empty pieces;
if any piece fails float coercion return the empty sequence, otherwise the
coerced pieces. -/
def spec_string_parse (s : String) : List PyF :=
  let t := pyStripL s.data
  let core :=
    if t.head? = some '{' && t.getLast? = some '}' then (t.drop 1).dropLast
    else t
  let pieces := ((splitOnComma core).map pyStripL).filter (fun p => !p.isEmpty)
  if pieces.any (fun p => (pyFloatOfString (String.mk p)).isNone) then []
  else pieces.filterMap (fun p => pyFloatOfString (String.mk p))

/-- Spec-side formulation of the ampersand sanitiser: position by position,
an `&` whose tail is not a recognised entity reference becomes `&amp;` and
every other character stays unchanged. -/
def sanitizeSpecL (cs : List Char) : List Char :=
  (List.range cs.length).flatMap (fun i =>
    if (cs.drop i).head? = some '&' && !entityAhead (cs.drop (i + 1)) then
      ['&', 'a', 'm', 'p', ';']
    else (cs.drop i).take 1)


/-- C1 counterexample: write a record with ratings `[5.0]` (so
`avg_rating = 5.0`), then write it again with ratings emptied.  The save
hook leaves the old average in place, so the stored `avg_rating` is
`5.0`, not null as the claim requires. -/
theorem c1_counterexample :
    (save { save ⟨1, "A", "B", .fin (.ofInt 1), .fin (.ofInt 2), [.fin (.ofInt 5)], none⟩
              with ratings := [] }).ratings = [] ∧
    (save { save ⟨1, "A", "B", .fin (.ofInt 1), .fin (.ofInt 2), [.fin (.ofInt 5)], none⟩
              with ratings := [] }).avg_rating = some (.fin (.ofInt 5)) := by
  decide

/-- C1 (amended): at every write the save hook recomputes `avg_rating` as
the arithmetic mean of the stored ratings when they are non-empty; when the
stored ratings are empty the hook leaves `avg_rating` at its previous value
(null for a fresh record, possibly a stale mean after an update from
non-empty to empty ratings). -/
theorem c1_avg_rating_write (p : PoI) :
    (save p).ratings = p.ratings ∧
    (save p).avg_rating =
      (if p.ratings.isEmpty then p.avg_rating else some (pfMean p.ratings)) := by
  by_cases h : p.ratings.isEmpty <;> simp [save, h]

/-- C4 counterexample: the ratings string `"{1.0, 2.5, bad, 3}"` does not
parse to `[1.0, 2.5, 3.0]`; the non-numeric piece `bad` makes the
comprehension raise `ValueError`, so the parser returns `[]`. -/
theorem c4_counterexample :
    parse_ratings (.str "{1.0, 2.5, bad, 3}") ≠
      [.fin (.ofInt 1), .fin ⟨5, 2⟩, .fin (.ofInt 3)] ∧
    parse_ratings (.str "{1.0, 2.5, bad, 3}") = [] := by
  decide

/-- C4 (amended): on `"{1.0, 2.5, bad, 3}"` the braces are stripped and the
string split, the numeric pieces `1.0`, `2.5`, `3` are individually
coercible, but the piece `bad` fails coercion, and the all-or-nothing
fallback makes the parser return the empty sequence. -/
theorem c4_parse_braces_bad :
    parse_ratings (.str "{1.0, 2.5, bad, 3}") = [] ∧
    pyFloatOfString "bad" = none ∧
    pyFloatOfString "1.0" = some (.fin (.ofInt 1)) ∧
    pyFloatOfString "2.5" = some (.fin ⟨5, 2⟩) ∧
    pyFloatOfString "3" = some (.fin (.ofInt 3)) := by
  decide

/-- C7: a row whose `poi_id`, `name` or `category` is the null marker or an
empty string/sequence is filtered silently: the outcome is `silent`, and
the processing step leaves the store, every counter and the output stream
unchanged. -/
theorem c7_missing_mandatory_silent (row : Row) (st : ImportState)
    (h : isMissing (rowGetD row "poi_id" .null) = true ∨
         isMissing (rowGetD row "name" .null) = true ∨
         isMissing (rowGetD row "category" .null) = true) :
    rowOutcome row = .silent ∧ step st row = st := by
  have hr : rowOutcome row = .silent := by
    unfold rowOutcome
    rcases h with h | h | h <;> simp [h]
  exact ⟨hr, by simp [step, hr]⟩

/-- Witness for C7 at a concrete row whose `name` is the empty string. -/
theorem c7_missing_mandatory_silent_witness :
    (isMissing (rowGetD [("poi_id", Value.str "1"), ("name", Value.str "")]
        "poi_id" .null) = true ∨
     isMissing (rowGetD [("poi_id", Value.str "1"), ("name", Value.str "")]
        "name" .null) = true ∨
     isMissing (rowGetD [("poi_id", Value.str "1"), ("name", Value.str "")]
        "category" .null) = true) ∧
    (rowOutcome [("poi_id", Value.str "1"), ("name", Value.str "")] = .silent ∧
     step (initState []) [("poi_id", Value.str "1"), ("name", Value.str "")] =
       initState []) :=
  ⟨Or.inr (Or.inl (by decide)),
   c7_missing_mandatory_silent _ _ (Or.inr (Or.inl (by decide)))⟩

/-- C8 counterexample: on the raw bytes `1F 8B` (gzip magic, truncated
stream) CPython `gzip.decompress` raises `EOFError`, which `except
OSError` does not catch, so the decompression failure is reported as a
file-level error instead of falling back to plain text. -/
theorem c8_counterexample :
    truncatedGzDec [0x1F, 0x8B] = .eofError ∧
    import_xml_bytes truncatedGzDec [0x1F, 0x8B] = .fileError := by
  decide

/-- Decompressor behaviour used by the C8 witness: an `OSError`
(e.g. `gzip.BadGzipFile`) on every input. -/
def osErrorGzDec : List Nat → GzResult := fun _ => .osError

/-- C8 (amended): for gzip-sniffed input, decompression failure with
`OSError` (including `BadGzipFile`) falls back to treating the original
bytes as plain text, successful decompression proceeds with the
decompressed bytes, but an `EOFError` (truncated stream) escapes the gzip
step and is reported as a file-level error. -/
theorem c8_gzip_fallback (dec : List Nat → GzResult) (a b : Nat)
    (t raw d : List Nat) (hraw : raw = a :: b :: t)
    (ha : a = 0x1F) (hb : b = 0x8B) :
    (dec raw = .osError → import_xml_bytes dec raw = .proceeds raw) ∧
    (dec raw = .ok d → import_xml_bytes dec raw = .proceeds d) ∧
    (dec raw = .eofError → import_xml_bytes dec raw = .fileError) := by
  subst hraw ha hb
  refine ⟨fun h => ?_, fun h => ?_, fun h => ?_⟩ <;>
    simp [import_xml_bytes, gunzipStage, h]

/-- Witness for C8 at the concrete bytes `1F 8B 00` and an
`OSError`-raising decompressor. -/
theorem c8_gzip_fallback_witness :
    (osErrorGzDec [0x1F, 0x8B, 0] = .osError →
      import_xml_bytes osErrorGzDec [0x1F, 0x8B, 0] = .proceeds [0x1F, 0x8B, 0]) ∧
    (osErrorGzDec [0x1F, 0x8B, 0] = .ok [] →
      import_xml_bytes osErrorGzDec [0x1F, 0x8B, 0] = .proceeds []) ∧
    (osErrorGzDec [0x1F, 0x8B, 0] = .eofError →
      import_xml_bytes osErrorGzDec [0x1F, 0x8B, 0] = .fileError) :=
  c8_gzip_fallback osErrorGzDec 0x1F 0x8B [0] [0x1F, 0x8B, 0] [] rfl rfl rfl

/-- Row used by the C2 counterexample: a whitespace-only name. -/
def wsNameRow : Row :=
  [("poi_id", .str "1"), ("name", .str "   "), ("category", .str "Park"),
   ("latitude", .num (.ofInt 1)), ("longitude", .num (.ofInt 2))]

/-- C2 counterexample: a row whose `name` is whitespace-only passes the
pre-trim emptiness check and IS persisted — the stored record has the
empty string as its name. -/
theorem c2_counterexample :
    rowOutcome wsNameRow =
      .ok ⟨1, "", "Park", .fin (.ofInt 1), .fin (.ofInt 2), []⟩ ∧
    processRow [] wsNameRow =
      (.ok ⟨1, "", "Park", .fin (.ofInt 1), .fin (.ofInt 2), []⟩,
       [⟨1, "", "Park", .fin (.ofInt 1), .fin (.ofInt 2), [], none⟩]) := by
  decide

/-- Coordinate acceptance of the row pipeline: the pair of coerced floats
when both coordinate labels are present, neither value is the null/NaN
marker (nor array-like, whose truth test raises), and both float
coercions succeed; `none` otherwise. -/
def coordsOfRow (row : Row) : Option (PyF × PyF) :=
  match rowIdx row "latitude", rowIdx row "longitude" with
  | some latV, some lonV =>
    match pdIsna latV, pdIsna lonV with
    | some false, some false =>
      match pyFloatOfValue latV, pyFloatOfValue lonV with
      | some lat, some lon => some (lat, lon)
      | _, _ => none
    | _, _ => none
  | _, _ => none

/-- C2 (amended): every row the importer persists passed the pre-trim
presence checks on `poi_id`, `name` and `category` and the coordinate
checks (labels present, not null/NaN, float-coercible), and the persisted
name and category are the trimmed string renderings of the raw values —
which, the presence check being pre-trim, may be empty strings when the
raw value was whitespace-only. -/
theorem c2_persisted_fields (row : Row) (f : RowFields) (s : Store)
    (h : rowOutcome row = .ok f) :
    isMissing (rowGetD row "poi_id" .null) = false ∧
    isMissing (rowGetD row "name" .null) = false ∧
    isMissing (rowGetD row "category" .null) = false ∧
    f.name = pyStrip (pyStr (rowGetD row "name" .null)) ∧
    f.category = pyStrip (pyStr (rowGetD row "category" .null)) ∧
    coordsOfRow row = some (f.latitude, f.longitude) ∧
    processRow s row = (.ok f, update_or_create s f) := by
  have hro := h
  simp only [rowOutcome] at h
  cases hp1 : isMissing (rowGetD row "poi_id" .null) with
  | true => simp [hp1] at h
  | false =>
  cases hp2 : isMissing (rowGetD row "name" .null) with
  | true => simp [hp1, hp2] at h
  | false =>
  cases hp3 : isMissing (rowGetD row "category" .null) with
  | true => simp [hp1, hp2, hp3] at h
  | false =>
  simp only [hp1, hp2, hp3, Bool.or_self, Bool.false_eq_true, if_false] at h
  refine ⟨rfl, rfl, rfl, ?_⟩
  cases hid : pyIntOfValue (rowGetD row "poi_id" .null) with
  | none => simp [hid] at h
  | some pid =>
  cases hlat : rowIdx row "latitude" with
  | none => simp [hid, hlat] at h
  | some latV =>
  cases hlon : rowIdx row "longitude" with
  | none => simp [hid, hlat, hlon] at h
  | some lonV =>
  cases hil : pdIsna latV with
  | none => simp [hid, hlat, hlon, hil] at h
  | some bl =>
  cases bl with
  | true => simp [hid, hlat, hlon, hil] at h
  | false =>
  cases hio : pdIsna lonV with
  | none => simp [hid, hlat, hlon, hil, hio] at h
  | some bo =>
  cases bo with
  | true => simp [hid, hlat, hlon, hil, hio] at h
  | false =>
  cases hfl : pyFloatOfValue latV with
  | none => simp [hid, hlat, hlon, hil, hio, hfl] at h
  | some lat =>
  cases hfo : pyFloatOfValue lonV with
  | none => simp [hid, hlat, hlon, hil, hio, hfl, hfo] at h
  | some lon =>
  simp only [hid, hlat, hlon, hil, hio, hfl, hfo, ROut.ok.injEq] at h
  subst h
  refine ⟨rfl, rfl, ?_, ?_⟩
  · simp [coordsOfRow, hlat, hlon, hil, hio, hfl, hfo]
  · simp [processRow, hro]

/-- Witness for C2 at a concrete valid row. -/
theorem c2_persisted_fields_witness :
    rowOutcome [("poi_id", Value.str "7"), ("name", Value.str " Cafe "),
        ("category", Value.str "Food"), ("latitude", Value.num (.ofInt 1)),
        ("longitude", Value.str "2.5")] =
      .ok ⟨7, "Cafe", "Food", .fin (.ofInt 1), .fin ⟨5, 2⟩, []⟩ ∧
    (isMissing (rowGetD [("poi_id", Value.str "7"), ("name", Value.str " Cafe "),
        ("category", Value.str "Food"), ("latitude", Value.num (.ofInt 1)),
        ("longitude", Value.str "2.5")] "poi_id" .null) = false ∧
     isMissing (rowGetD [("poi_id", Value.str "7"), ("name", Value.str " Cafe "),
        ("category", Value.str "Food"), ("latitude", Value.num (.ofInt 1)),
        ("longitude", Value.str "2.5")] "name" .null) = false ∧
     isMissing (rowGetD [("poi_id", Value.str "7"), ("name", Value.str " Cafe "),
        ("category", Value.str "Food"), ("latitude", Value.num (.ofInt 1)),
        ("longitude", Value.str "2.5")] "category" .null) = false ∧
     RowFields.name ⟨7, "Cafe", "Food", .fin (.ofInt 1), .fin ⟨5, 2⟩, []⟩ =
       pyStrip (pyStr (rowGetD [("poi_id", Value.str "7"), ("name", Value.str " Cafe "),
        ("category", Value.str "Food"), ("latitude", Value.num (.ofInt 1)),
        ("longitude", Value.str "2.5")] "name" .null)) ∧
     RowFields.category ⟨7, "Cafe", "Food", .fin (.ofInt 1), .fin ⟨5, 2⟩, []⟩ =
       pyStrip (pyStr (rowGetD [("poi_id", Value.str "7"), ("name", Value.str " Cafe "),
        ("category", Value.str "Food"), ("latitude", Value.num (.ofInt 1)),
        ("longitude", Value.str "2.5")] "category" .null)) ∧
     coordsOfRow [("poi_id", Value.str "7"), ("name", Value.str " Cafe "),
        ("category", Value.str "Food"), ("latitude", Value.num (.ofInt 1)),
        ("longitude", Value.str "2.5")] =
       some (RowFields.latitude ⟨7, "Cafe", "Food", .fin (.ofInt 1), .fin ⟨5, 2⟩, []⟩,
             RowFields.longitude ⟨7, "Cafe", "Food", .fin (.ofInt 1), .fin ⟨5, 2⟩, []⟩) ∧
     processRow [] [("poi_id", Value.str "7"), ("name", Value.str " Cafe "),
        ("category", Value.str "Food"), ("latitude", Value.num (.ofInt 1)),
        ("longitude", Value.str "2.5")] =
       (.ok ⟨7, "Cafe", "Food", .fin (.ofInt 1), .fin ⟨5, 2⟩, []⟩,
        update_or_create [] ⟨7, "Cafe", "Food", .fin (.ofInt 1), .fin ⟨5, 2⟩, []⟩)) :=
  ⟨by decide, c2_persisted_fields _ _ [] (by decide)⟩

/-- Row used by the C6 counterexample: no latitude column at all. -/
def noLatRow : Row := [("poi_id", .str "1"), ("name", .str "A"), ("category", .str "B")]

/-- C6 counterexample: a row passing the presence check whose coordinate
column is entirely absent raises `KeyError` at `row['latitude']`, which the
coordinate `except (ValueError, TypeError)` does not catch; the outer
handler counts it as a row error and emits an error line, contradicting
the claimed warning-skip with no counter change. -/
theorem c6_counterexample :
    rowOutcome noLatRow = .err ∧
    process_dataframe [noLatRow] (initState []) =
      { store := [], success := 0, errors := 1, dups := 0, out := [.errLine] } := by
  decide

/-- Row used by the C6 witness: a NaN latitude value. -/
def nanLatRow : Row :=
  [("poi_id", .str "1"), ("name", .str "A"), ("category", .str "B"),
   ("latitude", .nan), ("longitude", .num (.ofInt 3))]

/-- C6 (amended): for a row passing the presence check and the id coercion
whose latitude and longitude labels are present, a null/NaN value, an
array-like value (whose truth test raises) or a failing float coercion
makes the row a warning skip: a warning line is emitted and the store and
all three counters stay unchanged.  (A wholly absent coordinate column is
instead a `KeyError` counted as a row error — see the counterexample.) -/
theorem c6_coordinate_warning (row : Row) (st : ImportState) (pid : Int)
    (latV lonV : Value)
    (hp1 : isMissing (rowGetD row "poi_id" .null) = false)
    (hp2 : isMissing (rowGetD row "name" .null) = false)
    (hp3 : isMissing (rowGetD row "category" .null) = false)
    (hid : pyIntOfValue (rowGetD row "poi_id" .null) = some pid)
    (hlat : rowIdx row "latitude" = some latV)
    (hlon : rowIdx row "longitude" = some lonV)
    (hbad : coordsOfRow row = none) :
    rowOutcome row = .warn ∧
    step st row = { st with out := st.out ++ [.warnLine] } := by
  simp only [coordsOfRow, hlat, hlon] at hbad
  have hw : rowOutcome row = .warn := by
    simp only [rowOutcome, hp1, hp2, hp3, Bool.or_self, Bool.false_eq_true,
      if_false, hid, hlat, hlon]
    cases hil : pdIsna latV with
    | none => simp
    | some bl =>
    cases bl with
    | true => simp [hil]
    | false =>
    simp only [hil] at hbad ⊢
    cases hio : pdIsna lonV with
    | none => simp
    | some bo =>
    cases bo with
    | true => simp [hio]
    | false =>
    simp only [hio] at hbad ⊢
    cases hfl : pyFloatOfValue latV with
    | none => simp
    | some lat =>
    cases hfo : pyFloatOfValue lonV with
    | none => simp [hfl]
    | some lon => simp [hfl, hfo] at hbad
  exact ⟨hw, by simp [step, hw]⟩

/-- Witness for C6 at a concrete row with a NaN latitude. -/
theorem c6_coordinate_warning_witness :
    isMissing (rowGetD nanLatRow "poi_id" .null) = false ∧
    isMissing (rowGetD nanLatRow "name" .null) = false ∧
    isMissing (rowGetD nanLatRow "category" .null) = false ∧
    pyIntOfValue (rowGetD nanLatRow "poi_id" .null) = some 1 ∧
    rowIdx nanLatRow "latitude" = some .nan ∧
    rowIdx nanLatRow "longitude" = some (.num (.ofInt 3)) ∧
    coordsOfRow nanLatRow = none ∧
    (rowOutcome nanLatRow = .warn ∧
     step (initState []) nanLatRow =
       { initState [] with out := (initState []).out ++ [.warnLine] }) :=
  ⟨by decide, by decide, by decide, rfl, rfl, rfl, rfl,
   c6_coordinate_warning nanLatRow (initState []) 1 .nan (.num (.ofInt 3))
     (by decide) (by decide) (by decide) rfl rfl rfl rfl⟩

/-- Characterisation of the all-or-nothing coercion: it fails exactly when
some element fails, and otherwise returns the coerced elements. -/
theorem optionMapAll_char (f : α → Option β) (l : List α) :
    optionMapAll f l =
      if l.any (fun x => (f x).isNone) then none else some (l.filterMap f) := by
  induction l with
  | nil => simp [optionMapAll]
  | cons x l ih =>
    cases hfx : f x with
    | none => simp [optionMapAll, hfx]
    | some y =>
      have hfx' : (f x).isNone = false := by simp [hfx]
      simp only [optionMapAll, hfx, ih, apply_ite (Option.map (y :: ·)),
        List.any_cons, hfx', Option.isNone_some, Bool.false_or,
        List.filterMap_cons, Option.map_none', Option.map_some']

/-- The comprehension result as `parse_ratings` sees it: empty when any
piece fails coercion, the coerced pieces otherwise. -/
theorem optionMapAllD_char (f : α → Option β) (l : List α) :
    optionMapAllD f l =
      if l.any (fun x => (f x).isNone) then [] else l.filterMap f := by
  unfold optionMapAllD
  rw [optionMapAll_char]
  cases h : l.any (fun x => (f x).isNone) <;> simp [h]

/-- C5: on every string input, `parse_ratings` strips a single pair of
wrapping braces from the trimmed string, splits on commas, trims the
pieces, drops empty pieces, and either coerces every piece or — when any
single piece fails float coercion — returns the empty sequence, exactly as
the spec-level formulation `spec_string_parse` states. -/
theorem c5_string_branch (s : String) :
    parse_ratings (.str s) = spec_string_parse s := by
  show parseRatingsStr s = spec_string_parse s
  unfold parseRatingsStr spec_string_parse
  simp only [optionMapAllD_char]
  set core :=
    (if (pyStripL s.data).head? = some '{' && (pyStripL s.data).getLast? = some '}' then
      ((pyStripL s.data).drop 1).dropLast
    else pyStripL s.data) with hcore
  by_cases hc : core.isEmpty = true
  · have hnil : core = [] := by simpa using hc
    rw [if_pos hc, hnil]
    simp [splitOnComma, pyStripL]
  · rw [if_neg hc]

/-- The positional sanitiser on the empty text. -/
theorem sanitizeSpecL_nil : sanitizeSpecL [] = [] := rfl

/-- Unfolding of the positional sanitiser one character at a time. -/
theorem sanitizeSpecL_cons (c : Char) (cs : List Char) :
    sanitizeSpecL (c :: cs) =
      (if c = '&' && !entityAhead cs then ['&', 'a', 'm', 'p', ';'] else [c]) ++
        sanitizeSpecL cs := by
  unfold sanitizeSpecL
  rw [List.length_cons, List.range_succ_eq_map, List.flatMap_cons, List.flatMap_map]
  simp only [List.drop_zero, List.head?_cons, List.drop_succ_cons, List.take_succ_cons,
    List.take_zero, Option.some.injEq, List.drop_one]

/-- C9: the ampersand sanitiser replaces exactly those ampersands whose
tail is not a recognised entity reference (named entities, decimal and
hexadecimal numeric references) by `&amp;` and leaves every other
character unchanged: it coincides with the positional spec formulation at
every input. -/
theorem c9_sanitize_exact (s : String) :
    sanitize_ampersands s = String.mk (sanitizeSpecL s.data) := by
  unfold sanitize_ampersands
  congr 1
  induction s.data with
  | nil => rfl
  | cons c cs ih =>
    rw [sanitizeSpecL_cons, sanitizeAmpsL, ih]

/-- A lookahead pattern matches exactly the lists extending it. -/
theorem leadsWithL_iff (p : List Char) : ∀ cs, leadsWithL p cs = true ↔ ∃ t, cs = p ++ t := by
  induction p with
  | nil => intro cs; simp [leadsWithL]
  | cons a ps ih =>
    intro cs
    cases cs with
    | nil => simp [leadsWithL]
    | cons b cs' =>
      simp only [leadsWithL, Bool.and_eq_true, decide_eq_true_eq, ih, List.cons_append,
        List.cons.injEq]
      constructor
      · rintro ⟨rfl, t, rfl⟩; exact ⟨t, rfl, rfl⟩
      · rintro ⟨t, rfl, rfl⟩; exact ⟨rfl, t, rfl⟩

/-- The sanitiser passes an ampersand-free segment through unchanged. -/
theorem sanitizeAmpsL_ampfree (p : List Char) (hp : ∀ c ∈ p, c ≠ '&') :
    ∀ t, sanitizeAmpsL (p ++ t) = p ++ sanitizeAmpsL t := by
  induction p with
  | nil => intro t; rfl
  | cons c p ih =>
    intro t
    have hc : c ≠ '&' := hp c (List.mem_cons_self c p)
    have ih' := ih (fun d hd => hp d (List.mem_cons_of_mem c hd))
    simp [sanitizeAmpsL, hc, ih']

/-- Decomposition of a list at the end of its matching run. -/
theorem takeWhile_drop_decomp (p : Char → Bool) (l : List Char) :
    l = l.takeWhile p ++ l.drop (l.takeWhile p).length := by
  induction l with
  | nil => rfl
  | cons c l ih =>
    by_cases hc : p c = true
    · simpa [List.takeWhile_cons, hc] using ih
    · simp [List.takeWhile_cons, hc]

/-- Every element of the matching run satisfies the test. -/
theorem takeWhile_all_mem (p : Char → Bool) :
    ∀ (l : List Char), ∀ c ∈ l.takeWhile p, p c = true := by
  intro l
  induction l with
  | nil => intro c hc; cases hc
  | cons a l ih =>
    intro c hc
    by_cases ha : p a = true
    · rw [List.takeWhile_cons, if_pos ha] at hc
      rcases List.mem_cons.mp hc with rfl | hmem
      · exact ha
      · exact ih c hmem
    · rw [List.takeWhile_cons, if_neg ha] at hc
      cases hc

/-- The matching run of a satisfying segment followed by a failing
character is the segment itself. -/
theorem takeWhile_append_all (p : Char → Bool) (ds : List Char) (y : Char) (X : List Char)
    (h : ∀ c ∈ ds, p c = true) (hy : p y = false) :
    List.takeWhile p (ds ++ y :: X) = ds := by
  induction ds with
  | nil => simp [List.takeWhile_cons, hy]
  | cons c ds ih =>
    have hc := h c (List.mem_cons_self c ds)
    simp [List.takeWhile_cons, hc, ih (fun d hd => h d (List.mem_cons_of_mem c hd))]

/-- An ampersand-free lookahead match is preserved by sanitising. -/
theorem leadsWith_sanitize (pat cs : List Char) (hpat : ∀ c ∈ pat, c ≠ '&')
    (h : leadsWithL pat cs = true) : leadsWithL pat (sanitizeAmpsL cs) = true := by
  obtain ⟨t, rfl⟩ := (leadsWithL_iff _ _).mp h
  rw [sanitizeAmpsL_ampfree pat hpat t]
  exact (leadsWithL_iff _ _).mpr ⟨_, rfl⟩

/-- Decimal reference lookaheads survive sanitising. -/
theorem decRefAhead_sanitize (cs : List Char) (h : decRefAhead cs = true) :
    decRefAhead (sanitizeAmpsL cs) = true := by
  unfold decRefAhead at h
  split at h
  case h_2 => cases h
  case h_1 c rest =>
    simp only [Bool.and_eq_true, Bool.not_eq_eq_eq_not, Bool.not_false] at h
    obtain ⟨hds, hsc⟩ := h
    obtain ⟨t, ht⟩ := (leadsWithL_iff _ _).mp hsc
    set ds := rest.takeWhile Char.isDigit with hdsdef
    have hrest : rest = ds ++ ';' :: t := by
      conv_lhs => rw [takeWhile_drop_decomp Char.isDigit rest]
      rw [← hdsdef, ht]
      rfl
    have hdig : ∀ c ∈ ds, Char.isDigit c = true := takeWhile_all_mem Char.isDigit rest
    have hfree : ∀ c ∈ '#' :: (ds ++ [';']), c ≠ '&' := by
      intro c hc
      rcases List.mem_cons.mp hc with rfl | hc
      · decide
      rcases List.mem_append.mp hc with hc | hc
      · intro heq
        subst heq
        exact absurd (hdig _ hc) (by decide)
      · rcases List.mem_singleton.mp hc with rfl
        decide
    have hsplit : '#' :: rest = ('#' :: (ds ++ [';'])) ++ t := by
      rw [hrest]; simp
    rw [hsplit, sanitizeAmpsL_ampfree _ hfree t]
    have : ('#' :: (ds ++ [';'])) ++ sanitizeAmpsL t =
        '#' :: (ds ++ ';' :: sanitizeAmpsL t) := by simp
    rw [this]
    simp only [decRefAhead]
    rw [takeWhile_append_all Char.isDigit ds ';' (sanitizeAmpsL t) hdig (by decide)]
    have hdl : (ds ++ ';' :: sanitizeAmpsL t).drop ds.length = ';' :: sanitizeAmpsL t :=
      List.drop_left ds (';' :: sanitizeAmpsL t)
    rw [hdl]
    simpa [leadsWithL] using hds

/-- Hexadecimal reference lookaheads survive sanitising. -/
theorem hexRefAhead_sanitize (cs : List Char) (h : hexRefAhead cs = true) :
    hexRefAhead (sanitizeAmpsL cs) = true := by
  unfold hexRefAhead at h
  split at h
  case h_2 => cases h
  case h_1 c rest =>
    simp only [Bool.and_eq_true, Bool.not_eq_eq_eq_not, Bool.not_false] at h
    obtain ⟨hds, hsc⟩ := h
    obtain ⟨t, ht⟩ := (leadsWithL_iff _ _).mp hsc
    set ds := rest.takeWhile isHexCh with hdsdef
    have hrest : rest = ds ++ ';' :: t := by
      conv_lhs => rw [takeWhile_drop_decomp isHexCh rest]
      rw [← hdsdef, ht]
      rfl
    have hdig : ∀ c ∈ ds, isHexCh c = true := takeWhile_all_mem isHexCh rest
    have hfree : ∀ c ∈ '#' :: 'x' :: (ds ++ [';']), c ≠ '&' := by
      intro c hc
      rcases List.mem_cons.mp hc with rfl | hc
      · decide
      rcases List.mem_cons.mp hc with rfl | hc
      · decide
      rcases List.mem_append.mp hc with hc | hc
      · intro heq
        subst heq
        exact absurd (hdig _ hc) (by decide)
      · rcases List.mem_singleton.mp hc with rfl
        decide
    have hsplit : '#' :: 'x' :: rest = ('#' :: 'x' :: (ds ++ [';'])) ++ t := by
      rw [hrest]; simp
    rw [hsplit, sanitizeAmpsL_ampfree _ hfree t]
    have : ('#' :: 'x' :: (ds ++ [';'])) ++ sanitizeAmpsL t =
        '#' :: 'x' :: (ds ++ ';' :: sanitizeAmpsL t) := by simp
    rw [this]
    simp only [hexRefAhead]
    rw [takeWhile_append_all isHexCh ds ';' (sanitizeAmpsL t) hdig (by decide)]
    have hdl : (ds ++ ';' :: sanitizeAmpsL t).drop ds.length = ';' :: sanitizeAmpsL t :=
      List.drop_left ds (';' :: sanitizeAmpsL t)
    rw [hdl]
    simpa [leadsWithL] using hds

/-- Recognised entity lookaheads survive sanitising. -/
theorem entityAhead_sanitize (cs : List Char) (h : entityAhead cs = true) :
    entityAhead (sanitizeAmpsL cs) = true := by
  simp only [entityAhead, Bool.or_eq_true] at h ⊢
  rcases h with ((((((h | h) | h) | h) | h) | h) | h)
  · simp [leadsWith_sanitize _ _ (by decide) h]
  · simp [leadsWith_sanitize _ _ (by decide) h]
  · simp [leadsWith_sanitize _ _ (by decide) h]
  · simp [leadsWith_sanitize _ _ (by decide) h]
  · simp [leadsWith_sanitize _ _ (by decide) h]
  · simp [decRefAhead_sanitize _ h]
  · simp [hexRefAhead_sanitize _ h]

/-- The sanitiser is idempotent on character lists. -/
theorem sanitizeAmpsL_idem (cs : List Char) :
    sanitizeAmpsL (sanitizeAmpsL cs) = sanitizeAmpsL cs := by
  induction cs with
  | nil => rfl
  | cons c cs ih =>
    by_cases hc : c = '&'
    · subst hc
      cases he : entityAhead cs with
      | false =>
        have h1 : sanitizeAmpsL ('&' :: cs) = '&' :: 'a' :: 'm' :: 'p' :: ';' :: sanitizeAmpsL cs := by
          simp [sanitizeAmpsL, he]
        rw [h1]
        have hek : entityAhead ('a' :: 'm' :: 'p' :: ';' :: sanitizeAmpsL cs) = true := by
          have hlw : leadsWithL ['a', 'm', 'p', ';']
              ('a' :: 'm' :: 'p' :: ';' :: sanitizeAmpsL cs) = true :=
            (leadsWithL_iff _ _).mpr ⟨_, rfl⟩
          simp [entityAhead, hlw]
        have h2 : sanitizeAmpsL ('&' :: 'a' :: 'm' :: 'p' :: ';' :: sanitizeAmpsL cs) =
            '&' :: sanitizeAmpsL ('a' :: 'm' :: 'p' :: ';' :: sanitizeAmpsL cs) := by
          simp [sanitizeAmpsL, hek]
        rw [h2]
        have h3 : sanitizeAmpsL ('a' :: 'm' :: 'p' :: ';' :: sanitizeAmpsL cs) =
            'a' :: 'm' :: 'p' :: ';' :: sanitizeAmpsL (sanitizeAmpsL cs) :=
          sanitizeAmpsL_ampfree ['a', 'm', 'p', ';'] (by decide) (sanitizeAmpsL cs)
        rw [h3, ih]
      | true =>
        have h1 : sanitizeAmpsL ('&' :: cs) = '&' :: sanitizeAmpsL cs := by
          simp [sanitizeAmpsL, he]
        rw [h1]
        have h2 : sanitizeAmpsL ('&' :: sanitizeAmpsL cs) = '&' :: sanitizeAmpsL (sanitizeAmpsL cs) := by
          simp [sanitizeAmpsL, entityAhead_sanitize cs he]
        rw [h2, ih]
    · have h1 : sanitizeAmpsL (c :: cs) = c :: sanitizeAmpsL cs := by
        simp [sanitizeAmpsL, hc]
      rw [h1]
      have h2 : sanitizeAmpsL (c :: sanitizeAmpsL cs) = c :: sanitizeAmpsL (sanitizeAmpsL cs) := by
        simp [sanitizeAmpsL, hc]
      rw [h2, ih]

/-- C10: the ampersand sanitiser is idempotent — every `&` it introduces
heads an `&amp;` entity that its own lookahead refuses to rewrite, and
kept ampersands keep their recognised tails. -/
theorem c10_sanitize_idem (s : String) :
    sanitize_ampersands (sanitize_ampersands s) = sanitize_ampersands s := by
  unfold sanitize_ampersands
  exact congrArg String.mk (sanitizeAmpsL_idem s.data)

/-- External ids of the store records, in store order. -/
def keys (S : Store) : List Int := S.map (·.poi_id)

/-- Store lookup by external id (first match). -/
def getRec (S : Store) (k : Int) : Option PoI := S.find? (fun p => p.poi_id == k)

/-- The valid-row fields of a file, restricted to one external id. -/
def fsFor (k : Int) (fs : List RowFields) : List RowFields :=
  fs.filter (fun f => f.pid == k)

/-- Per-key accumulated effect of a sequence of upserts on an optional
record. -/
def applyAllOpt (l : List RowFields) (o : Option PoI) : Option PoI :=
  l.foldl (fun a f => some (applyRowFields f a)) o

/-- Per-key accumulated effect on an existing record. -/
def applyList (l : List RowFields) (p : PoI) : PoI :=
  l.foldl (fun a f => applyRowFields f (some a)) p

/-- One step of the `avg_rating` evolution: a write with non-empty ratings
sets the mean, a write with empty ratings keeps the previous value. -/
def avgStep (a : Option PyF) (f : RowFields) : Option PyF :=
  if f.ratings.isEmpty then a else some (pfMean f.ratings)

/-- The `avg_rating` evolution over a sequence of writes. -/
def avgFold (a : Option PyF) (l : List RowFields) : Option PyF := l.foldl avgStep a

/-- The `avg_rating` a record carries before a write: its stored value, or
null for a record not yet created. -/
def initAvg : Option PoI → Option PyF
  | some p => p.avg_rating
  | none => none

/-- Record with id `k`, the mutable fields of `f` and average `a`. -/
def mkRec (k : Int) (f : RowFields) (a : Option PyF) : PoI :=
  ⟨k, f.name, f.category, f.latitude, f.longitude, f.ratings, a⟩

/-- Effect of a whole file (its valid rows' fields, in order) on a store. -/
def run (fs : List RowFields) (S : Store) : Store := fs.foldl update_or_create S

/-- The fields of a valid row, `none` for skipped and erroring rows. -/
def fieldsOfRow (row : Row) : Option RowFields :=
  match rowOutcome row with
  | .ok f => some f
  | _ => none

/-- Last element of a non-empty list with fallback. -/
theorem getLastD_cons_eq (a : α) (l : List α) (d : α) :
    (a :: l).getLastD d = l.getLastD a := by
  cases l <;> rfl

/-- A freshly created record carries the row external id. -/
theorem applyRowFields_pid_none (f : RowFields) :
    (applyRowFields f none).poi_id = f.pid := by
  simp only [applyRowFields, save]
  split <;> rfl

/-- An updated record keeps its external id. -/
theorem applyRowFields_pid_some (f : RowFields) (p : PoI) :
    (applyRowFields f (some p)).poi_id = p.poi_id := by
  simp only [applyRowFields, save]
  split <;> rfl

/-- Normal form of one upsert write on a record of key `k`: the mutable
fields come from the row and the average evolves by `avgStep`. -/
theorem applyRowFields_eq_mkRec (k : Int) (f : RowFields) (o : Option PoI)
    (hf : f.pid = k) (ho : ∀ p, o = some p → p.poi_id = k) :
    applyRowFields f o = mkRec k f (avgStep (initAvg o) f) := by
  cases o with
  | none =>
    subst hf
    unfold applyRowFields save mkRec avgStep initAvg
    by_cases hr : f.ratings.isEmpty <;> simp [hr]
  | some p =>
    have hp : p.poi_id = k := ho p rfl
    unfold applyRowFields save mkRec avgStep initAvg
    by_cases hr : f.ratings.isEmpty <;> simp [hr, hp]

/-- Normal form of a non-empty sequence of same-key writes: the mutable
fields come from the last write and the average is the `avgStep` fold. -/
theorem applyAll_char (k : Int) (l : List RowFields) :
    ∀ (f : RowFields) (o : Option PoI), f.pid = k → (∀ x ∈ l, x.pid = k) →
      (∀ p, o = some p → p.poi_id = k) →
      applyAllOpt (f :: l) o = some (mkRec k (l.getLastD f) (avgFold (initAvg o) (f :: l))) := by
  induction l with
  | nil =>
    intro f o hf ho hp
    show some (applyRowFields f o) = _
    rw [applyRowFields_eq_mkRec k f o hf hp]
    rfl
  | cons f' l' ih =>
    intro f o hf hl hp
    have hstep : applyAllOpt (f :: f' :: l') o = applyAllOpt (f' :: l') (some (applyRowFields f o)) := rfl
    rw [hstep]
    have hf' : f'.pid = k := hl f' (List.mem_cons_self f' l')
    have hl' : ∀ x ∈ l', x.pid = k := fun x hx => hl x (List.mem_cons_of_mem f' hx)
    have hpid : (applyRowFields f o).poi_id = k := by
      rw [applyRowFields_eq_mkRec k f o hf hp]; rfl
    rw [ih f' (some (applyRowFields f o)) hf' hl'
      (fun p hpn => by cases hpn; exact hpid)]
    have havg : initAvg (some (applyRowFields f o)) = avgStep (initAvg o) f := by
      rw [applyRowFields_eq_mkRec k f o hf hp]; rfl
    rw [havg, getLastD_cons_eq]
    rfl

/-- The average evolution either ignores its starting point (some write has
non-empty ratings) or changes nothing. -/
theorem avgFold_dichotomy (l : List RowFields) :
    ∀ a b, avgFold a l = avgFold b l ∨ (avgFold a l = a ∧ avgFold b l = b) := by
  induction l with
  | nil => intro a b; exact Or.inr ⟨rfl, rfl⟩
  | cons f l ih =>
    intro a b
    by_cases hr : f.ratings.isEmpty
    · have ha : avgFold a (f :: l) = avgFold a l := by simp [avgFold, avgStep, hr]
      have hb : avgFold b (f :: l) = avgFold b l := by simp [avgFold, avgStep, hr]
      rw [ha, hb]
      exact ih a b
    · have ha : avgFold a (f :: l) = avgFold (some (pfMean f.ratings)) l := by
        simp [avgFold, avgStep, hr]
      have hb : avgFold b (f :: l) = avgFold (some (pfMean f.ratings)) l := by
        simp [avgFold, avgStep, hr]
      rw [ha, hb]
      exact Or.inl rfl

/-- Replaying a sequence of same-key writes onto its own result is a no-op. -/
theorem applyAll_idem (k : Int) (l : List RowFields) (o : Option PoI)
    (hl : ∀ x ∈ l, x.pid = k) (ho : ∀ p, o = some p → p.poi_id = k) :
    applyAllOpt l (applyAllOpt l o) = applyAllOpt l o := by
  cases l with
  | nil => rfl
  | cons f l' =>
    have hf : f.pid = k := hl f (List.mem_cons_self f l')
    have hl' : ∀ x ∈ l', x.pid = k := fun x hx => hl x (List.mem_cons_of_mem f hx)
    rw [applyAll_char k l' f o hf hl' ho]
    rw [applyAll_char k l' f (some (mkRec k (l'.getLastD f) (avgFold (initAvg o) (f :: l'))))
      hf hl' (fun p hpn => by cases hpn; rfl)]
    have hini : initAvg (some (mkRec k (l'.getLastD f) (avgFold (initAvg o) (f :: l')))) =
        avgFold (initAvg o) (f :: l') := rfl
    rw [hini]
    rcases avgFold_dichotomy (f :: l') (avgFold (initAvg o) (f :: l')) (initAvg o) with h | h
    · rw [h]
    · rw [h.1]

/-- Lookup through an upsert: the written key now maps to the written record. -/
theorem getRec_update (f : RowFields) : ∀ (S : Store) (k : Int),
    getRec (update_or_create S f) k =
      if k = f.pid then some (applyRowFields f (getRec S f.pid)) else getRec S k := by
  intro S
  induction S with
  | nil =>
    intro k
    by_cases hk : k = f.pid
    · subst hk
      simp [update_or_create, getRec, List.find?, applyRowFields_pid_none]
    · have hbe : (f.pid == k) = false := beq_eq_false_iff_ne.mpr (Ne.symm hk)
      simp [update_or_create, getRec, List.find?, applyRowFields_pid_none, hbe, hk]
  | cons p S ih =>
    intro k
    by_cases hpf : p.poi_id = f.pid
    · have hupd : update_or_create (p :: S) f = applyRowFields f (some p) :: S := by
        simp [update_or_create, hpf]
      rw [hupd]
      by_cases hk : k = f.pid
      · subst hk
        have h1 : getRec (applyRowFields f (some p) :: S) f.pid =
            some (applyRowFields f (some p)) :=
          List.find?_cons_of_pos _ (by simp [applyRowFields_pid_some, hpf])
        have h2 : getRec (p :: S) f.pid = some p :=
          List.find?_cons_of_pos _ (by simp [hpf])
        rw [h1, if_pos rfl, h2]
      · have h1 : getRec (applyRowFields f (some p) :: S) k = getRec S k :=
          List.find?_cons_of_neg _ (by
            simp [applyRowFields_pid_some, hpf]
            intro h
            exact absurd h.symm hk)
        have h2 : getRec (p :: S) k = getRec S k :=
          List.find?_cons_of_neg _ (by
            simp [hpf]
            intro h
            exact absurd h.symm hk)
        rw [h1, if_neg hk, h2]
    · have hupd : update_or_create (p :: S) f = p :: update_or_create S f := by
        simp [update_or_create, hpf]
      rw [hupd]
      by_cases hpk : p.poi_id = k
      · have hk : k ≠ f.pid := by
          intro h
          exact hpf (hpk.trans h)
        have h1 : getRec (p :: update_or_create S f) k = some p :=
          List.find?_cons_of_pos _ (by simp [hpk])
        have h2 : getRec (p :: S) k = some p :=
          List.find?_cons_of_pos _ (by simp [hpk])
        rw [h1, if_neg hk, h2]
      · have h1 : getRec (p :: update_or_create S f) k = getRec (update_or_create S f) k :=
          List.find?_cons_of_neg _ (by simp [hpk])
        have h2 : getRec (p :: S) k = getRec S k :=
          List.find?_cons_of_neg _ (by simp [hpk])
        have h3 : getRec (p :: S) f.pid = getRec S f.pid :=
          List.find?_cons_of_neg _ (by simp [hpf])
        rw [h1, h2, ih, h3]

/-- An upsert on an existing key does not change the stored key sequence. -/
theorem keys_update_mem (f : RowFields) : ∀ (S : Store), f.pid ∈ keys S →
    keys (update_or_create S f) = keys S := by
  intro S
  induction S with
  | nil => intro h; cases h
  | cons p S ih =>
    intro h
    by_cases hpf : p.poi_id = f.pid
    · simp [update_or_create, hpf, keys, applyRowFields_pid_some]
    · have hmem : f.pid ∈ keys S := by
        rcases List.mem_cons.mp h with heq | hmem
        · exact absurd heq.symm hpf
        · exact hmem
      have hkeys := ih hmem
      simp only [keys] at hkeys
      simp only [update_or_create, if_neg hpf, keys, List.map_cons]
      rw [hkeys]

/-- An upsert on an existing key does not change the store size. -/
theorem length_update_mem (f : RowFields) : ∀ (S : Store), f.pid ∈ keys S →
    (update_or_create S f).length = S.length := by
  intro S
  induction S with
  | nil => intro h; cases h
  | cons p S ih =>
    intro h
    by_cases hpf : p.poi_id = f.pid
    · simp [update_or_create, hpf]
    · have hmem : f.pid ∈ keys S := by
        rcases List.mem_cons.mp h with heq | hmem
        · exact absurd heq.symm hpf
        · exact hmem
      simp [update_or_create, hpf, ih hmem]

/-- An upsert on a fresh key appends the created record. -/
theorem update_not_mem (f : RowFields) : ∀ (S : Store), f.pid ∉ keys S →
    update_or_create S f = S ++ [applyRowFields f none] := by
  intro S
  induction S with
  | nil => intro _; rfl
  | cons p S ih =>
    intro h
    have hpf : p.poi_id ≠ f.pid := by
      intro heq
      exact h (by simp [keys, heq])
    have hmem : f.pid ∉ keys S := by
      intro hm
      exact h (by simp [keys] at hm ⊢; exact Or.inr hm)
    simp [update_or_create, hpf, ih hmem]

/-- After an upsert its key is present. -/
theorem keys_mem_update (f : RowFields) (S : Store) :
    f.pid ∈ keys (update_or_create S f) := by
  by_cases h : f.pid ∈ keys S
  · rw [keys_update_mem f S h]; exact h
  · rw [update_not_mem f S h]
    simp [keys, applyRowFields_pid_none]

/-- An upsert never removes keys. -/
theorem keys_sub_update (f : RowFields) (S : Store) :
    keys S ⊆ keys (update_or_create S f) := by
  by_cases h : f.pid ∈ keys S
  · rw [keys_update_mem f S h]
    exact fun a ha => ha
  · rw [update_not_mem f S h]
    simp only [keys, List.map_append]
    exact fun a ha => List.mem_append_left _ ha

/-- An upsert preserves key uniqueness. -/
theorem nodup_keys_update (f : RowFields) (S : Store) (hN : (keys S).Nodup) :
    (keys (update_or_create S f)).Nodup := by
  by_cases h : f.pid ∈ keys S
  · rw [keys_update_mem f S h]; exact hN
  · rw [update_not_mem f S h]
    have : keys (S ++ [applyRowFields f none]) = keys S ++ [f.pid] := by
      simp [keys, applyRowFields_pid_none]
    rw [this]
    simp [List.nodup_append, hN, h]

/-- A map that fixes every element of a list is the identity on it. -/
theorem mapIdOn (l : List α) (g : α → α) (h : ∀ x ∈ l, g x = x) : l.map g = l := by
  induction l with
  | nil => rfl
  | cons x l ih =>
    rw [List.map_cons, h x (List.mem_cons_self x l),
      ih (fun y hy => h y (List.mem_cons_of_mem x hy))]

/-- With unique keys, an upsert on an existing key is a pointwise update of
the store, position by position. -/
theorem upsert_mem_map (f : RowFields) : ∀ (S : Store), (keys S).Nodup →
    f.pid ∈ keys S →
    update_or_create S f =
      S.map (fun p => if p.poi_id = f.pid then applyRowFields f (some p) else p) := by
  intro S
  induction S with
  | nil => intro _ h; cases h
  | cons p S ih =>
    intro hN h
    by_cases hpf : p.poi_id = f.pid
    · have hcons : keys (p :: S) = p.poi_id :: keys S := rfl
      rw [hcons] at hN
      have hpn : p.poi_id ∉ keys S := (List.nodup_cons.mp hN).1
      have htail : ∀ q ∈ S, q.poi_id ≠ f.pid := by
        intro q hq heq
        exact hpn (by
          simp only [keys, List.mem_map]
          exact ⟨q, hq, heq.trans hpf.symm⟩)
      have hmap : S.map (fun q => if q.poi_id = f.pid then applyRowFields f (some q) else q) = S :=
        mapIdOn S _ (fun q hq => if_neg (htail q hq))
      simp [update_or_create, hpf, hmap]
    · have hmem : f.pid ∈ keys S := by
        rcases List.mem_cons.mp h with heq | hmem
        · exact absurd heq.symm hpf
        · exact hmem
      have hcons : keys (p :: S) = p.poi_id :: keys S := rfl
      rw [hcons] at hN
      have hN' : (keys S).Nodup := (List.nodup_cons.mp hN).2
      simp [update_or_create, hpf, ih hN' hmem]

/-- Per-key semantics of a whole file: the record under key `k` after a run
is the accumulated effect of exactly the rows with that key. -/
theorem getRec_run (fs : List RowFields) : ∀ (S : Store) (k : Int),
    getRec (run fs S) k = applyAllOpt (fsFor k fs) (getRec S k) := by
  induction fs with
  | nil => intro S k; rfl
  | cons f fs ih =>
    intro S k
    have hrun : run (f :: fs) S = run fs (update_or_create S f) := rfl
    rw [hrun, ih, getRec_update]
    by_cases hk : k = f.pid
    · subst hk
      have hfs : fsFor f.pid (f :: fs) = f :: fsFor f.pid fs := by
        simp [fsFor, List.filter_cons]
      rw [if_pos rfl, hfs]
      rfl
    · have hfs : fsFor k (f :: fs) = fsFor k fs := by
        have : (f.pid == k) = false := beq_eq_false_iff_ne.mpr (Ne.symm hk)
        simp [fsFor, List.filter_cons, this]
      rw [if_neg hk, hfs]

/-- A looked-up record carries the looked-up key. -/
theorem getRec_pid (S : Store) (k : Int) (q : PoI) (h : getRec S k = some q) :
    q.poi_id = k := by
  have := List.find?_some h
  simpa using this

/-- With unique keys every stored record is found under its own key. -/
theorem mem_getRec : ∀ (S : Store), (keys S).Nodup → ∀ p ∈ S,
    getRec S p.poi_id = some p := by
  intro S
  induction S with
  | nil => intro _ p hp; cases hp
  | cons q S ih =>
    intro hN p hp
    have hcons : keys (q :: S) = q.poi_id :: keys S := rfl
    rw [hcons] at hN
    rcases List.mem_cons.mp hp with rfl | hmem
    · exact List.find?_cons_of_pos _ (by simp)
    · have hne : q.poi_id ≠ p.poi_id := by
        intro heq
        exact (List.nodup_cons.mp hN).1 (by
          simp only [keys, List.mem_map]
          exact ⟨p, hmem, heq.symm⟩)
      have hstep : getRec (q :: S) p.poi_id = getRec S p.poi_id :=
        List.find?_cons_of_neg _ (by simp [hne])
      rw [hstep]
      exact ih (List.nodup_cons.mp hN).2 p hmem

/-- Accumulated writes on an existing record stay on a record. -/
theorem applyAllOpt_some (l : List RowFields) : ∀ (p : PoI),
    applyAllOpt l (some p) = some (applyList l p) := by
  induction l with
  | nil => intro p; rfl
  | cons f l ih =>
    intro p
    show applyAllOpt l (some (applyRowFields f (some p))) = _
    rw [ih]
    rfl

/-- A run never removes keys. -/
theorem keys_sub_run (fs : List RowFields) : ∀ (S : Store), keys S ⊆ keys (run fs S) := by
  induction fs with
  | nil => intro S a ha; exact ha
  | cons f fs ih =>
    intro S a ha
    exact ih (update_or_create S f) (keys_sub_update f S ha)

/-- After a run, every valid row key is present in the store. -/
theorem pids_mem_run (fs : List RowFields) : ∀ (S : Store), ∀ g ∈ fs,
    g.pid ∈ keys (run fs S) := by
  induction fs with
  | nil => intro S g hg; cases hg
  | cons f fs ih =>
    intro S g hg
    rcases List.mem_cons.mp hg with rfl | hmem
    · exact keys_sub_run fs (update_or_create S g) (keys_mem_update g S)
    · exact ih (update_or_create S f) g hmem

/-- A run preserves key uniqueness. -/
theorem nodup_keys_run (fs : List RowFields) : ∀ (S : Store), (keys S).Nodup →
    (keys (run fs S)).Nodup := by
  induction fs with
  | nil => intro S h; exact h
  | cons f fs ih =>
    intro S h
    exact ih (update_or_create S f) (nodup_keys_update f S h)

/-- When every row key already exists, a run is a pointwise update of the
store: no record is created, none moves. -/
theorem run_map (fs : List RowFields) : ∀ (S : Store), (keys S).Nodup →
    (∀ g ∈ fs, g.pid ∈ keys S) →
    run fs S = S.map (fun p => applyList (fsFor p.poi_id fs) p) := by
  induction fs with
  | nil =>
    intro S _ _
    exact (mapIdOn S _ (fun p _ => rfl)).symm
  | cons f fs ih =>
    intro S hN hmem
    have hf : f.pid ∈ keys S := hmem f (List.mem_cons_self f fs)
    have hrun : run (f :: fs) S = run fs (update_or_create S f) := rfl
    rw [hrun, upsert_mem_map f S hN hf]
    have hpid : ∀ p : PoI,
        ((fun p => if p.poi_id = f.pid then applyRowFields f (some p) else p) p).poi_id =
          p.poi_id := by
      intro p
      by_cases hp : p.poi_id = f.pid
      · simp [hp, applyRowFields_pid_some]
      · simp [hp]
    have hkeys : keys (S.map (fun p => if p.poi_id = f.pid then applyRowFields f (some p) else p)) =
        keys S := by
      simp only [keys, List.map_map]
      exact List.map_congr_left (fun p _ => hpid p)
    rw [ih _ (by rw [hkeys]; exact hN)
      (fun g hg => by rw [hkeys]; exact hmem g (List.mem_cons_of_mem f hg))]
    rw [List.map_map]
    apply List.map_congr_left
    intro p _
    show applyList (fsFor ((if p.poi_id = f.pid then applyRowFields f (some p) else p)).poi_id fs)
        (if p.poi_id = f.pid then applyRowFields f (some p) else p) =
      applyList (fsFor p.poi_id (f :: fs)) p
    rw [hpid p]
    by_cases hp : p.poi_id = f.pid
    · have hfs : fsFor p.poi_id (f :: fs) = f :: fsFor p.poi_id fs := by
        simp [fsFor, List.filter_cons, hp.symm]
      rw [if_pos hp, hfs]
      rfl
    · have hfs : fsFor p.poi_id (f :: fs) = fsFor p.poi_id fs := by
        have : (f.pid == p.poi_id) = false := beq_eq_false_iff_ne.mpr (Ne.symm hp)
        simp [fsFor, List.filter_cons, this]
      rw [if_neg hp, hfs]

/-- Running the same file twice gives the same store as running it once. -/
theorem run_idem (fs : List RowFields) (S : Store) (hN : (keys S).Nodup) :
    run fs (run fs S) = run fs S := by
  have hN2 : (keys (run fs S)).Nodup := nodup_keys_run fs S hN
  have hmem2 : ∀ g ∈ fs, g.pid ∈ keys (run fs S) := pids_mem_run fs S
  rw [run_map fs (run fs S) hN2 hmem2]
  apply mapIdOn
  intro p hp
  have hfilter : ∀ x ∈ fsFor p.poi_id fs, x.pid = p.poi_id := by
    intro x hx
    have := List.mem_filter.mp hx
    simpa using this.2
  have hget : ∀ q, getRec S p.poi_id = some q → q.poi_id = p.poi_id :=
    fun q hq => getRec_pid S p.poi_id q hq
  have hms : getRec (run fs S) p.poi_id = some p := mem_getRec (run fs S) hN2 p hp
  have hG : getRec (run fs S) p.poi_id =
      applyAllOpt (fsFor p.poi_id fs) (getRec S p.poi_id) := getRec_run fs S p.poi_id
  have hidem := applyAll_idem p.poi_id (fsFor p.poi_id fs) (getRec S p.poi_id) hfilter hget
  have hX : applyAllOpt (fsFor p.poi_id fs) (getRec S p.poi_id) = some p :=
    hG.symm.trans hms
  rw [hX] at hidem
  rw [applyAllOpt_some] at hidem
  exact Option.some.inj hidem

/-- The store after `process_dataframe` is the run of the valid rows'
fields over the initial store. -/
theorem process_dataframe_store (rows : List Row) : ∀ st : ImportState,
    (process_dataframe rows st).store = run (rows.filterMap fieldsOfRow) st.store := by
  induction rows with
  | nil => intro st; rfl
  | cons row rows ih =>
    intro st
    show (process_dataframe rows (step st row)).store = _
    rw [ih]
    cases ho : rowOutcome row <;>
      simp only [step, fieldsOfRow, ho, List.filterMap_cons] <;> rfl

/-- The success counter counts exactly the valid rows, independent of the
store contents. -/
theorem process_dataframe_success (rows : List Row) : ∀ st : ImportState,
    (process_dataframe rows st).success =
      st.success + (rows.filterMap fieldsOfRow).length := by
  induction rows with
  | nil => intro st; rfl
  | cons row rows ih =>
    intro st
    show (process_dataframe rows (step st row)).success = _
    rw [ih]
    cases ho : rowOutcome row <;>
      simp only [step, fieldsOfRow, ho, List.filterMap_cons, List.length_cons] <;> omega

/-- The duplicate counter is never incremented: keyed `update_or_create`
never raises the `IntegrityError` that feeds it. -/
theorem process_dataframe_dups (rows : List Row) : ∀ st : ImportState,
    (process_dataframe rows st).dups = st.dups := by
  induction rows with
  | nil => intro st; rfl
  | cons row rows ih =>
    intro st
    show (process_dataframe rows (step st row)).dups = _
    rw [ih]
    cases ho : rowOutcome row <;> simp [step, ho]

/-- C3: upsert is keyed on the external id — a valid row whose `poi_id`
already exists updates the existing record in place (same store size, same
key sequence, the record under that key rewritten by the row's fields) —
and importing the same file twice leaves the same final store, increments
the success count by the same amount again, and the duplicate counter
stays zero in both runs. -/
theorem c3_upsert_idempotent (rows : List Row) (S : Store) (row : Row) (f : RowFields)
    (hN : (keys S).Nodup) (hrow : rowOutcome row = .ok f) (hmem : f.pid ∈ keys S) :
    processRow S row = (.ok f, update_or_create S f) ∧
    (update_or_create S f).length = S.length ∧
    keys (update_or_create S f) = keys S ∧
    getRec (update_or_create S f) f.pid = some (applyRowFields f (getRec S f.pid)) ∧
    (process_dataframe rows (initState (process_dataframe rows (initState S)).store)).store =
      (process_dataframe rows (initState S)).store ∧
    (process_dataframe rows (initState (process_dataframe rows (initState S)).store)).success =
      (process_dataframe rows (initState S)).success ∧
    (process_dataframe rows (initState S)).dups = 0 ∧
    (process_dataframe rows (initState (process_dataframe rows (initState S)).store)).dups = 0 := by
  refine ⟨by simp [processRow, hrow], length_update_mem f S hmem, keys_update_mem f S hmem,
    ?_, ?_, ?_, ?_, ?_⟩
  · rw [getRec_update]
    simp
  · have h1 : (process_dataframe rows (initState S)).store =
        run (rows.filterMap fieldsOfRow) S := process_dataframe_store rows (initState S)
    have h2 : (process_dataframe rows
        (initState (process_dataframe rows (initState S)).store)).store =
        run (rows.filterMap fieldsOfRow) (process_dataframe rows (initState S)).store :=
      process_dataframe_store rows _
    rw [h2, h1]
    exact run_idem _ S hN
  · rw [process_dataframe_success, process_dataframe_success]
    rfl
  · rw [process_dataframe_dups]
    rfl
  · rw [process_dataframe_dups]
    rfl

/-- Store used by the C3 witness. -/
def c3Store : Store := [⟨1, "Old", "Cat", .fin (.ofInt 0), .fin (.ofInt 0), [], none⟩]

/-- First row of the C3 witness file (updates the existing record). -/
def c3RowA : Row :=
  [("poi_id", .str "1"), ("name", .str "Cafe"), ("category", .str "Food"),
   ("latitude", .num (.ofInt 1)), ("longitude", .num (.ofInt 2)),
   ("ratings", .str "{4, 5}")]

/-- Second row of the C3 witness file (creates a new record). -/
def c3RowB : Row :=
  [("poi_id", .str "2"), ("name", .str "Bar"), ("category", .str "Pub"),
   ("latitude", .num (.ofInt 3)), ("longitude", .num (.ofInt 4))]

/-- Coerced fields of the first C3 witness row. -/
def c3FieldsA : RowFields :=
  ⟨1, "Cafe", "Food", .fin (.ofInt 1), .fin (.ofInt 2),
   [.fin (.ofInt 4), .fin (.ofInt 5)]⟩

/-- Witness for C3 at a concrete store and two-row file. -/
theorem c3_upsert_idempotent_witness :
    (keys c3Store).Nodup ∧
    rowOutcome c3RowA = .ok c3FieldsA ∧
    c3FieldsA.pid ∈ keys c3Store ∧
    (processRow c3Store c3RowA = (.ok c3FieldsA, update_or_create c3Store c3FieldsA) ∧
     (update_or_create c3Store c3FieldsA).length = c3Store.length ∧
     keys (update_or_create c3Store c3FieldsA) = keys c3Store ∧
     getRec (update_or_create c3Store c3FieldsA) c3FieldsA.pid =
       some (applyRowFields c3FieldsA (getRec c3Store c3FieldsA.pid)) ∧
     (process_dataframe [c3RowA, c3RowB]
        (initState (process_dataframe [c3RowA, c3RowB] (initState c3Store)).store)).store =
       (process_dataframe [c3RowA, c3RowB] (initState c3Store)).store ∧
     (process_dataframe [c3RowA, c3RowB]
        (initState (process_dataframe [c3RowA, c3RowB] (initState c3Store)).store)).success =
       (process_dataframe [c3RowA, c3RowB] (initState c3Store)).success ∧
     (process_dataframe [c3RowA, c3RowB] (initState c3Store)).dups = 0 ∧
     (process_dataframe [c3RowA, c3RowB]
        (initState (process_dataframe [c3RowA, c3RowB] (initState c3Store)).store)).dups = 0) :=
  ⟨by decide, by decide, by decide,
   c3_upsert_idempotent [c3RowA, c3RowB] c3Store c3RowA c3FieldsA
     (by decide) (by decide) (by decide)⟩
